import Mathlib

/-!
# Verification of `record_clip.py` (ClipManager)

Shallow embedding of `src/resources/py/record_clip.py`:

```python
    # lines 1-2: the os module and datetime.datetime are imported

    def record_clip():
        now = datetime.now().strftime("%Y-%m-%d_%H-%M-%S")
        os.system(f"ffmpeg -i rtsp://<camera_ip>:554/h264Preview_01_main -t 30 -vcodec copy /var/www/html/clips/{now}.mp4")

    record_clip()
```

The wall clock observed by `datetime.now()` is modelled as an explicit
`DateTime` value (second granularity, the granularity of the format string).
`strftime("%Y-%m-%d_%H-%M-%S")` is embedded as `timestampChars` /
`timestampStr`, built from a zero-padded decimal rendering of each field
(`%Y` pads to 4, the other directives pad to 2, per the C `strftime`
semantics Python delegates to).  `os.system` is modelled as an oracle
`OsSem : String → World → World × Int` (command in, possibly-changed
filesystem and exit status out); `record_clip` calls it once and, exactly as
the Python does, discards the returned status and returns `None`
(modelled as `Option.none : Option String`, the `Option`-of-`FilePath` view
of the result).  The unguarded top-level call on line 8 is modelled by
`loadModule`.
-/

namespace ClipManager

/-- A wall-clock instant at second granularity: exactly the fields the
format string `"%Y-%m-%d_%H-%M-%S"` reads. -/
structure DateTime where
  year : Nat
  month : Nat
  day : Nat
  hour : Nat
  minute : Nat
  second : Nat
deriving DecidableEq, Repr

/-- The invariants `datetime.now()` guarantees for its fields
(Python: `MINYEAR = 1`, `MAXYEAR = 9999`). -/
def DateTime.Valid (t : DateTime) : Prop :=
  1 ≤ t.year ∧ t.year ≤ 9999 ∧ 1 ≤ t.month ∧ t.month ≤ 12 ∧
  1 ≤ t.day ∧ t.day ≤ 31 ∧ t.hour ≤ 23 ∧ t.minute ≤ 59 ∧ t.second ≤ 59

instance (t : DateTime) : Decidable t.Valid := by
  unfold DateTime.Valid; infer_instance

/-- The character of a decimal digit (`0 ≤ d ≤ 9` in every use). -/
def digitChar (d : Nat) : Char := Char.ofNat (48 + d)

/-- Decimal rendering of a natural number, fueled so that it is structural
recursion (the fuel used is always sufficient, see `natRepr_lt` and
`natRepr_ge`). -/
def natReprAux : Nat → Nat → List Char
  | 0, _ => []
  | fuel + 1, n =>
    if n < 10 then [digitChar n]
    else natReprAux fuel (n / 10) ++ [digitChar (n % 10)]

/-- Decimal rendering of `n`, as C's `%d` (no padding, no leading zeros,
`0` renders as `"0"`). -/
def natRepr (n : Nat) : List Char := natReprAux (n + 1) n

/-- Zero-pad a digit run on the left to width `w` (C's `%0wd`). -/
def padLeft (w : Nat) (ds : List Char) : List Char :=
  List.replicate (w - ds.length) '0' ++ ds

/-- `%m`, `%d`, `%H`, `%M`, `%S`: the field zero-padded to two digits. -/
def pad2 (n : Nat) : List Char := padLeft 2 (natRepr n)

/-- `%Y`: the year zero-padded to four digits. -/
def pad4 (n : Nat) : List Char := padLeft 4 (natRepr n)

/-- `strftime("%Y-%m-%d_%H-%M-%S")` on `t`, as a character list. -/
def timestampChars (t : DateTime) : List Char :=
  pad4 t.year ++ '-' :: (pad2 t.month ++ '-' :: (pad2 t.day ++
    '_' :: (pad2 t.hour ++ '-' :: (pad2 t.minute ++ '-' :: pad2 t.second))))

/-- `strftime("%Y-%m-%d_%H-%M-%S")` on `t`: the Python variable `now`. -/
def timestampStr (t : DateTime) : String := String.mk (timestampChars t)

/-- The generated filename `{now}.mp4`. -/
def fileName (t : DateTime) : String := timestampStr t ++ ".mp4"

/-- The fixed output directory hard-coded in the command line. -/
def outputDir : String := "/var/www/html/clips"

/-- The destination path `/var/www/html/clips/{now}.mp4` embedded in the
command line. -/
def destPath (t : DateTime) : String :=
  "/var/www/html/clips/" ++ timestampStr t ++ ".mp4"

/-- The f-string of line 6, as a function of the interpolated `now`. -/
def commandOf (now : String) : String :=
  "ffmpeg -i rtsp://<camera_ip>:554/h264Preview_01_main -t 30 -vcodec copy /var/www/html/clips/"
    ++ now ++ ".mp4"

/-- The command line `record_clip` passes to `os.system` at clock `t`. -/
def commandStr (t : DateTime) : String := commandOf (timestampStr t)

/-- The filesystem, the only process-external state the script touches:
the set (as a list) of files present. -/
structure World where
  files : List String
deriving DecidableEq, Repr

/-- Semantics of `os.system`: a command is given the current filesystem and
yields the filesystem it leaves behind and its exit status.  The external
capture tool's behaviour is a parameter, never fixed by the script. -/
def OsSem : Type := String → World → World × Int

/-- What one invocation of `record_clip` did: the filesystem it left, the
commands it passed to `os.system` (in order), and its Python return value
(`some path` would model returning a `FilePath`; the actual function
returns `None`, i.e. `Option.none`). -/
structure RunResult where
  world : World
  calls : List String
  ret : Option String
deriving Repr

/-- The body of `record_clip` (lines 4-6): compute `now`, call `os.system`
on the f-string once, ignore the returned exit status, return `None`. -/
def record_clip (t : DateTime) (os_system : OsSem) (w : World) : RunResult :=
  let now := timestampStr t
  let cmd := commandOf now
  let r := os_system cmd w
  { world := r.1, calls := [cmd], ret := Option.none }

/-- A top-level call site of the module: the function called and whether
the call sits under an `if __name__ == "__main__"` guard. -/
structure CallSite where
  fn : String
  underMainGuard : Bool
deriving DecidableEq, Repr

/-- The module's top-level call sites: exactly one, the bare unguarded
`record_clip()` on line 8. -/
def moduleCallSites : List CallSite := [⟨"record_clip", false⟩]

/-- Execute one top-level call site.  A guarded site runs only when the
module is run as a script (`asMain`); an unguarded one always runs. -/
def runCallSite (t : DateTime) (os_system : OsSem) (asMain : Bool)
    (cs : CallSite) (acc : World × List String) : World × List String :=
  if cs.underMainGuard && !asMain then acc
  else
    let r := record_clip t os_system acc.1
    (r.world, acc.2 ++ r.calls)

/-- Loading the module (importing it: `asMain = false`; running it as a
script: `asMain = true`) executes its top-level statements in order. -/
def loadModule (t : DateTime) (os_system : OsSem) (asMain : Bool)
    (w : World) : World × List String :=
  moduleCallSites.foldl (fun acc cs => runCallSite t os_system asMain cs acc) (w, [])

/-- Split a character list into the fields the shell's word splitting
produces on single spaces. -/
def splitOnSpace : List Char → List (List Char)
  | [] => [[]]
  | c :: cs =>
    match splitOnSpace cs with
    | [] => [[]]
    | ww :: ws => if c = ' ' then [] :: ww :: ws else (c :: ww) :: ws

/-- Characters the POSIX shell treats specially (word splitting,
quoting, expansion, control operators, redirection, comments). -/
def shellMetaChars : List Char :=
  [' ', '\t', '\n', ';', '&', '|', '<', '>', '(', ')', '$', '\\',
   '\x22', '\x27', '*', '?', '[', ']', '#', '~', '=', '%', '\x7b', '\x7d', '!']

/-! ## Lemmas about the decimal rendering -/

/-- Value of a digit character. -/
def digitVal (c : Char) : Nat := c.toNat - 48

/-- Value of a digit run, most significant first. -/
def digitsVal (ds : List Char) : Nat := ds.foldl (fun a c => 10 * a + digitVal c) 0

theorem natReprAux_eq_of_lt :
    ∀ f1 f2 n, n < f1 → n < f2 → natReprAux f1 n = natReprAux f2 n := by
  intro f1
  induction f1 with
  | zero => intro f2 n h1 _; exact absurd h1 (Nat.not_lt_zero n)
  | succ f1 ih =>
    intro f2 n h1 h2
    cases f2 with
    | zero => exact absurd h2 (Nat.not_lt_zero n)
    | succ f2 =>
      simp only [natReprAux]
      by_cases h : n < 10
      · simp [h]
      · have hd : n / 10 < n := Nat.div_lt_self (by omega) (by omega)
        simp only [if_neg h]
        rw [ih f2 (n / 10) (by omega) (by omega)]

theorem natRepr_lt {n : Nat} (h : n < 10) : natRepr n = [digitChar n] := by
  simp [natRepr, natReprAux, h]

theorem natRepr_ge {n : Nat} (h : 10 ≤ n) :
    natRepr n = natRepr (n / 10) ++ [digitChar (n % 10)] := by
  have hd : n / 10 < n := Nat.div_lt_self (by omega) (by omega)
  have step : natReprAux (n + 1) n =
      if n < 10 then [digitChar n]
      else natReprAux n (n / 10) ++ [digitChar (n % 10)] := rfl
  simp only [natRepr]
  rw [step, if_neg (by omega : ¬ n < 10)]
  exact congrArg (fun l => l ++ [digitChar (n % 10)])
    (natReprAux_eq_of_lt n (n / 10 + 1) (n / 10) (by omega) (by omega))

theorem digitChar_toNat {d : Nat} (h : d < 10) : (digitChar d).toNat = 48 + d := by
  interval_cases d <;> decide

theorem digitChar_isDigit {d : Nat} (h : d < 10) : (digitChar d).isDigit = true := by
  interval_cases d <;> decide

theorem natRepr_digits : ∀ n, ∀ c ∈ natRepr n, c.isDigit = true := by
  intro n
  induction n using Nat.strong_induction_on with
  | _ n ih =>
    by_cases h : n < 10
    · rw [natRepr_lt h]
      intro c hc
      rw [List.mem_singleton] at hc
      subst hc
      exact digitChar_isDigit h
    · rw [natRepr_ge (by omega)]
      intro c hc
      rcases List.mem_append.mp hc with hc | hc
      · exact ih (n / 10) (Nat.div_lt_self (by omega) (by omega)) c hc
      · rw [List.mem_singleton] at hc
        subst hc
        exact digitChar_isDigit (Nat.mod_lt n (by omega))

theorem natRepr_ne_nil (n : Nat) : natRepr n ≠ [] := by
  by_cases h : n < 10
  · rw [natRepr_lt h]; simp
  · rw [natRepr_ge (by omega)]; simp

theorem digitsVal_natRepr : ∀ n, digitsVal (natRepr n) = n := by
  intro n
  induction n using Nat.strong_induction_on with
  | _ n ih =>
    by_cases h : n < 10
    · rw [natRepr_lt h]
      simp [digitsVal, digitVal, digitChar_toNat h]
    · rw [natRepr_ge (by omega)]
      simp only [digitsVal, List.foldl_append, List.foldl_cons, List.foldl_nil]
      have hv := ih (n / 10) (Nat.div_lt_self (by omega) (by omega))
      simp only [digitsVal] at hv
      rw [hv, digitVal, digitChar_toNat (Nat.mod_lt n (by omega))]
      omega

theorem natRepr_inj {a b : Nat} (h : natRepr a = natRepr b) : a = b := by
  rw [← digitsVal_natRepr a, h, digitsVal_natRepr]

theorem natRepr_head_ne_zero :
    ∀ n, 1 ≤ n → ∀ c cs, natRepr n = c :: cs → c ≠ '0' := by
  intro n
  induction n using Nat.strong_induction_on with
  | _ n ih =>
    intro hn c cs hrepr
    by_cases h : n < 10
    · rw [natRepr_lt h] at hrepr
      obtain ⟨rfl, -⟩ := List.cons.inj hrepr
      interval_cases n <;> decide
    · rw [natRepr_ge (by omega)] at hrepr
      obtain ⟨c', cs', hc'⟩ := List.exists_cons_of_ne_nil (natRepr_ne_nil (n / 10))
      rw [hc', List.cons_append] at hrepr
      have hne := ih (n / 10) (Nat.div_lt_self (by omega) (by omega))
        (Nat.one_le_div_iff (by omega) |>.mpr (by omega)) c' cs' hc'
      obtain ⟨h1, -⟩ := List.cons.inj hrepr
      rw [← h1]
      exact hne

/-! ## Lemmas about zero-padding -/

theorem dropWhile_replicate_zero :
    ∀ (k : Nat) (l : List Char),
      List.dropWhile (fun c => c == '0') (List.replicate k '0' ++ l) =
      List.dropWhile (fun c => c == '0') l := by
  intro k
  induction k with
  | zero => intro l; simp
  | succ k ih =>
    intro l
    rw [List.replicate_succ, List.cons_append, List.dropWhile_cons_of_pos (by decide)]
    exact ih l

theorem dropWhile_padLeft (w : Nat) (ds : List Char) :
    List.dropWhile (fun c => c == '0') (padLeft w ds) =
    List.dropWhile (fun c => c == '0') ds := by
  simp only [padLeft]
  exact dropWhile_replicate_zero (w - ds.length) ds

theorem dropWhile_natRepr_pos {n : Nat} (h : 1 ≤ n) :
    List.dropWhile (fun c => c == '0') (natRepr n) = natRepr n := by
  obtain ⟨c, cs, hc⟩ := List.exists_cons_of_ne_nil (natRepr_ne_nil n)
  have hz : c ≠ '0' := natRepr_head_ne_zero n h c cs hc
  rw [hc, List.dropWhile_cons_of_neg]
  simp [hz]

theorem padLeft_natRepr_inj {w a b : Nat}
    (h : padLeft w (natRepr a) = padLeft w (natRepr b)) : a = b := by
  have h2 := congrArg (List.dropWhile (fun c => c == '0')) h
  rw [dropWhile_padLeft, dropWhile_padLeft] at h2
  rcases Nat.eq_zero_or_pos a with ha | ha <;> rcases Nat.eq_zero_or_pos b with hb | hb
  · omega
  · exfalso
    subst ha
    rw [dropWhile_natRepr_pos hb] at h2
    rw [show List.dropWhile (fun c => c == '0') (natRepr 0) = [] from by decide] at h2
    exact natRepr_ne_nil b h2.symm
  · exfalso
    subst hb
    rw [dropWhile_natRepr_pos ha] at h2
    rw [show List.dropWhile (fun c => c == '0') (natRepr 0) = [] from by decide] at h2
    exact natRepr_ne_nil a h2
  · rw [dropWhile_natRepr_pos ha, dropWhile_natRepr_pos hb] at h2
    exact natRepr_inj h2

theorem pad2_inj {a b : Nat} (h : pad2 a = pad2 b) : a = b :=
  padLeft_natRepr_inj h

theorem pad4_inj {a b : Nat} (h : pad4 a = pad4 b) : a = b :=
  padLeft_natRepr_inj h

theorem padLeft_digits {w : Nat} {ds : List Char}
    (h : ∀ c ∈ ds, c.isDigit = true) : ∀ c ∈ padLeft w ds, c.isDigit = true := by
  intro c hc
  rcases List.mem_append.mp hc with hc | hc
  · rw [List.eq_of_mem_replicate hc]; decide
  · exact h c hc

theorem pad2_digits (n : Nat) : ∀ c ∈ pad2 n, c.isDigit = true :=
  padLeft_digits (natRepr_digits n)

theorem pad4_digits (n : Nat) : ∀ c ∈ pad4 n, c.isDigit = true :=
  padLeft_digits (natRepr_digits n)

theorem natRepr_length_one {n : Nat} (h : n < 10) : (natRepr n).length = 1 := by
  rw [natRepr_lt h]; rfl

theorem natRepr_length_le_two {n : Nat} (h : n < 100) : (natRepr n).length ≤ 2 := by
  by_cases h1 : n < 10
  · rw [natRepr_length_one h1]; omega
  · rw [natRepr_ge (by omega), List.length_append,
      natRepr_length_one (by omega : n / 10 < 10)]
    rfl

theorem natRepr_length_le_three {n : Nat} (h : n < 1000) : (natRepr n).length ≤ 3 := by
  by_cases h1 : n < 10
  · rw [natRepr_length_one h1]; omega
  · rw [natRepr_ge (by omega), List.length_append]
    have := natRepr_length_le_two (by omega : n / 10 < 100)
    simp
    omega

theorem natRepr_length_le_four {n : Nat} (h : n < 10000) : (natRepr n).length ≤ 4 := by
  by_cases h1 : n < 10
  · rw [natRepr_length_one h1]; omega
  · rw [natRepr_ge (by omega), List.length_append]
    have := natRepr_length_le_three (by omega : n / 10 < 1000)
    simp
    omega

theorem padLeft_length {w : Nat} {ds : List Char} (h : ds.length ≤ w) :
    (padLeft w ds).length = w := by
  simp [padLeft]
  omega

theorem pad2_length {n : Nat} (h : n ≤ 99) : (pad2 n).length = 2 :=
  padLeft_length (natRepr_length_le_two (by omega))

theorem pad4_length {n : Nat} (h : n ≤ 9999) : (pad4 n).length = 4 :=
  padLeft_length (natRepr_length_le_four (by omega))

/-! ## Injectivity of the timestamp -/

theorem append_sep_inj (c : Char) :
    ∀ (p1 p2 r1 r2 : List Char), (∀ x ∈ p1, x ≠ c) → (∀ x ∈ p2, x ≠ c) →
      p1 ++ c :: r1 = p2 ++ c :: r2 → p1 = p2 ∧ r1 = r2 := by
  intro p1
  induction p1 with
  | nil =>
    intro p2 r1 r2 h1 h2 heq
    cases p2 with
    | nil => simpa using heq
    | cons y ys =>
      exfalso
      rw [List.nil_append, List.cons_append] at heq
      obtain ⟨hcy, -⟩ := List.cons.inj heq
      exact h2 y (List.mem_cons_self y ys) hcy.symm
  | cons x xs ih =>
    intro p2 r1 r2 h1 h2 heq
    cases p2 with
    | nil =>
      exfalso
      rw [List.nil_append, List.cons_append] at heq
      obtain ⟨hxc, -⟩ := List.cons.inj heq
      exact h1 x (List.mem_cons_self x xs) hxc
    | cons y ys =>
      rw [List.cons_append, List.cons_append] at heq
      obtain ⟨hxy, htail⟩ := List.cons.inj heq
      obtain ⟨hp, hr⟩ := ih ys r1 r2 (fun z hz => h1 z (List.mem_cons_of_mem x hz))
        (fun z hz => h2 z (List.mem_cons_of_mem y hz)) htail
      exact ⟨by rw [hxy, hp], hr⟩

theorem isDigit_ne_sep {x : Char} (hx : x.isDigit = true) :
    x ≠ '-' ∧ x ≠ '_' ∧ x ≠ ' ' := by
  refine ⟨?_, ?_, ?_⟩ <;> intro h <;> rw [h] at hx <;> exact absurd hx (by decide)

theorem timestampChars_inj {t1 t2 : DateTime}
    (h : timestampChars t1 = timestampChars t2) : t1 = t2 := by
  obtain ⟨y1, mo1, d1, hh1, mi1, s1⟩ := t1
  obtain ⟨y2, mo2, d2, hh2, mi2, s2⟩ := t2
  simp only [timestampChars] at h
  obtain ⟨e1, h⟩ := append_sep_inj '-' _ _ _ _
    (fun x hx => (isDigit_ne_sep (pad4_digits _ x hx)).1)
    (fun x hx => (isDigit_ne_sep (pad4_digits _ x hx)).1) h
  obtain ⟨e2, h⟩ := append_sep_inj '-' _ _ _ _
    (fun x hx => (isDigit_ne_sep (pad2_digits _ x hx)).1)
    (fun x hx => (isDigit_ne_sep (pad2_digits _ x hx)).1) h
  obtain ⟨e3, h⟩ := append_sep_inj '_' _ _ _ _
    (fun x hx => (isDigit_ne_sep (pad2_digits _ x hx)).2.1)
    (fun x hx => (isDigit_ne_sep (pad2_digits _ x hx)).2.1) h
  obtain ⟨e4, h⟩ := append_sep_inj '-' _ _ _ _
    (fun x hx => (isDigit_ne_sep (pad2_digits _ x hx)).1)
    (fun x hx => (isDigit_ne_sep (pad2_digits _ x hx)).1) h
  obtain ⟨e5, e6⟩ := append_sep_inj '-' _ _ _ _
    (fun x hx => (isDigit_ne_sep (pad2_digits _ x hx)).1)
    (fun x hx => (isDigit_ne_sep (pad2_digits _ x hx)).1) h
  have q1 := pad4_inj e1
  have q2 := pad2_inj e2
  have q3 := pad2_inj e3
  have q4 := pad2_inj e4
  have q5 := pad2_inj e5
  have q6 := pad2_inj e6
  subst q1; subst q2; subst q3; subst q4; subst q5; subst q6
  rfl

theorem timestampStr_inj {t1 t2 : DateTime}
    (h : timestampStr t1 = timestampStr t2) : t1 = t2 :=
  timestampChars_inj (congrArg String.data h)

theorem fileName_inj {t1 t2 : DateTime}
    (h : fileName t1 = fileName t2) : t1 = t2 := by
  apply timestampStr_inj
  have hd := congrArg String.data h
  simp only [fileName, String.data_append] at hd
  have := List.append_inj_left' hd rfl
  exact congrArg String.mk this

/-! ## Word structure of the command line -/

theorem splitOnSpace_ne_nil : ∀ l : List Char, splitOnSpace l ≠ []
  | [] => by simp [splitOnSpace]
  | c :: cs => by
    simp only [splitOnSpace]
    cases hsp : splitOnSpace cs with
    | nil => simp
    | cons w ws => by_cases hc : c = ' ' <;> simp [hc]

theorem splitOnSpace_append_word :
    ∀ (a l : List Char) (w : List Char) (ws : List (List Char)),
      (∀ x ∈ a, x ≠ ' ') → splitOnSpace l = w :: ws →
      splitOnSpace (a ++ l) = (a ++ w) :: ws := by
  intro a
  induction a with
  | nil => intro l w ws _ hl; simpa using hl
  | cons x xs ih =>
    intro l w ws hna hl
    have hx : x ≠ ' ' := hna x (List.mem_cons_self x xs)
    rw [List.cons_append]
    simp only [splitOnSpace]
    rw [ih l w ws (fun z hz => hna z (List.mem_cons_of_mem x hz)) hl]
    simp [hx]

theorem splitOnSpace_space_cons (l : List Char) :
    splitOnSpace (' ' :: l) = [] :: splitOnSpace l := by
  obtain ⟨w, ws, hw⟩ := List.exists_cons_of_ne_nil (splitOnSpace_ne_nil l)
  simp only [splitOnSpace, hw]
  simp

theorem splitOnSpace_all_nonspace (a : List Char) (h : ∀ x ∈ a, x ≠ ' ') :
    splitOnSpace a = [a] := by
  have h2 := splitOnSpace_append_word a [] [] [] h (by simp [splitOnSpace])
  simpa using h2

theorem word_cons (a rest : List Char) (h : ∀ x ∈ a, x ≠ ' ') :
    splitOnSpace (a ++ ' ' :: rest) = a :: splitOnSpace rest := by
  have h2 := splitOnSpace_append_word a (' ' :: rest) [] (splitOnSpace rest) h
    (splitOnSpace_space_cons rest)
  simpa using h2

theorem timestampChars_classes (t : DateTime) :
    ∀ c ∈ timestampChars t, c.isDigit = true ∨ c = '-' ∨ c = '_' := by
  intro c hc
  simp only [timestampChars] at hc
  rcases List.mem_append.mp hc with h | h
  · exact Or.inl (pad4_digits _ c h)
  rcases List.mem_cons.mp h with rfl | h
  · exact Or.inr (Or.inl rfl)
  rcases List.mem_append.mp h with h | h
  · exact Or.inl (pad2_digits _ c h)
  rcases List.mem_cons.mp h with rfl | h
  · exact Or.inr (Or.inl rfl)
  rcases List.mem_append.mp h with h | h
  · exact Or.inl (pad2_digits _ c h)
  rcases List.mem_cons.mp h with rfl | h
  · exact Or.inr (Or.inr rfl)
  rcases List.mem_append.mp h with h | h
  · exact Or.inl (pad2_digits _ c h)
  rcases List.mem_cons.mp h with rfl | h
  · exact Or.inr (Or.inl rfl)
  rcases List.mem_append.mp h with h | h
  · exact Or.inl (pad2_digits _ c h)
  rcases List.mem_cons.mp h with rfl | h
  · exact Or.inr (Or.inl rfl)
  exact Or.inl (pad2_digits _ c h)

theorem timestampChars_nonspace (t : DateTime) :
    ∀ c ∈ timestampChars t, c ≠ ' ' := by
  intro c hc
  rcases timestampChars_classes t c hc with h | h | h
  · exact (isDigit_ne_sep h).2.2
  · subst h; decide
  · subst h; decide

theorem destPath_nonspace (t : DateTime) : ∀ x ∈ (destPath t).data, x ≠ ' ' := by
  intro x hx
  simp only [destPath, String.data_append] at hx
  rcases List.mem_append.mp hx with h | h
  · rcases List.mem_append.mp h with h | h
    · exact (by decide : ∀ x ∈ "/var/www/html/clips/".data, x ≠ ' ') x h
    · exact timestampChars_nonspace t x h
  · exact (by decide : ∀ x ∈ ".mp4".data, x ≠ ' ') x h

theorem commandShape (t : DateTime) :
    (commandStr t).data =
      "ffmpeg".data ++ ' ' :: ("-i".data ++ ' ' ::
        ("rtsp://<camera_ip>:554/h264Preview_01_main".data ++ ' ' ::
          ("-t".data ++ ' ' :: ("30".data ++ ' ' ::
            ("-vcodec".data ++ ' ' :: ("copy".data ++ ' ' ::
              (destPath t).data)))))) := by
  have hlit :
      "ffmpeg -i rtsp://<camera_ip>:554/h264Preview_01_main -t 30 -vcodec copy /var/www/html/clips/".data
        = "ffmpeg".data ++ ' ' :: ("-i".data ++ ' ' ::
            ("rtsp://<camera_ip>:554/h264Preview_01_main".data ++ ' ' ::
              ("-t".data ++ ' ' :: ("30".data ++ ' ' ::
                ("-vcodec".data ++ ' ' :: ("copy".data ++ ' ' ::
                  "/var/www/html/clips/".data)))))) := by decide
  simp only [commandStr, commandOf, destPath, String.data_append, hlit,
    List.append_assoc, List.cons_append, List.nil_append, List.append_nil]

theorem commandWords (t : DateTime) :
    splitOnSpace (commandStr t).data =
      ["ffmpeg".data, "-i".data, "rtsp://<camera_ip>:554/h264Preview_01_main".data,
        "-t".data, "30".data, "-vcodec".data, "copy".data, (destPath t).data] := by
  rw [commandShape t,
    word_cons _ _ (by decide), word_cons _ _ (by decide), word_cons _ _ (by decide),
    word_cons _ _ (by decide), word_cons _ _ (by decide), word_cons _ _ (by decide),
    word_cons _ _ (by decide),
    splitOnSpace_all_nonspace _ (destPath_nonspace t)]

/-! ## The spec's filename format, and two facts tying the destination path
to the command line -/

/-- Modelled from the spec's words: a character list matching the format
`YYYY-MM-DD_HH-MM-SS` (four digits, then groups of two, with the literal
separators `-`, `-`, `_`, `-`, `-`). -/
def isTimestampFormat (s : List Char) : Prop :=
  ∃ y mo d hh mi se : List Char,
    y.length = 4 ∧ mo.length = 2 ∧ d.length = 2 ∧ hh.length = 2 ∧
    mi.length = 2 ∧ se.length = 2 ∧
    (∀ c ∈ y, c.isDigit = true) ∧ (∀ c ∈ mo, c.isDigit = true) ∧
    (∀ c ∈ d, c.isDigit = true) ∧ (∀ c ∈ hh, c.isDigit = true) ∧
    (∀ c ∈ mi, c.isDigit = true) ∧ (∀ c ∈ se, c.isDigit = true) ∧
    s = y ++ '-' :: (mo ++ '-' :: (d ++ '_' :: (hh ++ '-' :: (mi ++ '-' :: se))))

theorem destPath_eq (t : DateTime) :
    destPath t = outputDir ++ "/" ++ fileName t := by
  have hd : (destPath t).data = (outputDir ++ "/" ++ fileName t).data := by
    simp [destPath, outputDir, fileName, String.data_append, List.append_assoc]
  exact congrArg String.mk hd

theorem commandStr_eq_dest (t : DateTime) :
    commandStr t =
      "ffmpeg -i rtsp://<camera_ip>:554/h264Preview_01_main -t 30 -vcodec copy "
        ++ destPath t := by
  have hd : (commandStr t).data =
      ("ffmpeg -i rtsp://<camera_ip>:554/h264Preview_01_main -t 30 -vcodec copy "
        ++ destPath t).data := by
    simp [commandStr, commandOf, destPath, String.data_append, List.append_assoc]
  exact congrArg String.mk hd

/-! ## The claims -/

/-- C1 (counterexample): at a concrete clock, filesystem, and an `os.system`
that exits with status zero, `record_clip`'s result is not the destination
`FilePath`; moreover the result is the very same value when `os.system`
exits with status one, so the result does not reflect the exit status. -/
theorem C1_counterexample :
    (record_clip ⟨2025, 3, 14, 9, 26, 53⟩
        (fun _ w' => (w', (0 : Int))) (World.mk [])).ret
      ≠ some (destPath ⟨2025, 3, 14, 9, 26, 53⟩) ∧
    (record_clip ⟨2025, 3, 14, 9, 26, 53⟩
        (fun _ w' => (w', (0 : Int))) (World.mk [])).ret
      = (record_clip ⟨2025, 3, 14, 9, 26, 53⟩
          (fun _ w' => (w', (1 : Int))) (World.mk [])).ret :=
  ⟨by simp [record_clip], rfl⟩

/-- C1 (amended): `record_clip` discards the exit status that `os.system`
returns: whatever the subprocess's exit code, the operation's result is
`None` — neither the destination `FilePath` on success nor any failure
report are propagated to the invoking context. -/
theorem C1_result_is_always_none :
    ∀ (t : DateTime) (os_system : OsSem) (w : World),
      (record_clip t os_system w).ret = Option.none := by
  intro t os_system w
  rfl

/-- C2: for a valid wall-clock value, the timestamp matches the exact
format `YYYY-MM-DD_HH-MM-SS`, the generated filename is that timestamp
followed by `.mp4`, the destination path is that filename under the fixed
output directory `/var/www/html/clips`, and that destination path is
exactly what the constructed command ends with. -/
theorem C2_filename_format (t : DateTime) (hv : t.Valid) :
    isTimestampFormat (timestampChars t) ∧
    fileName t = timestampStr t ++ ".mp4" ∧
    destPath t = outputDir ++ "/" ++ fileName t ∧
    commandStr t =
      "ffmpeg -i rtsp://<camera_ip>:554/h264Preview_01_main -t 30 -vcodec copy "
        ++ destPath t := by
  obtain ⟨hy1, hy2, hmo1, hmo2, hd1, hd2, hh, hmi, hs⟩ := hv
  refine ⟨?_, rfl, destPath_eq t, commandStr_eq_dest t⟩
  refine ⟨pad4 t.year, pad2 t.month, pad2 t.day, pad2 t.hour, pad2 t.minute,
    pad2 t.second, pad4_length (by omega), pad2_length (by omega),
    pad2_length (by omega), pad2_length (by omega), pad2_length (by omega),
    pad2_length (by omega), pad4_digits _, pad2_digits _, pad2_digits _,
    pad2_digits _, pad2_digits _, pad2_digits _, rfl⟩

/-- C2 (witness): the concrete clock 2025-03-14 09:26:53 is valid and the
theorem's conclusion holds there. -/
theorem C2_filename_format_witness :
    DateTime.Valid ⟨2025, 3, 14, 9, 26, 53⟩ ∧
    (isTimestampFormat (timestampChars ⟨2025, 3, 14, 9, 26, 53⟩) ∧
     fileName ⟨2025, 3, 14, 9, 26, 53⟩ =
       timestampStr ⟨2025, 3, 14, 9, 26, 53⟩ ++ ".mp4" ∧
     destPath ⟨2025, 3, 14, 9, 26, 53⟩ =
       outputDir ++ "/" ++ fileName ⟨2025, 3, 14, 9, 26, 53⟩ ∧
     commandStr ⟨2025, 3, 14, 9, 26, 53⟩ =
       "ffmpeg -i rtsp://<camera_ip>:554/h264Preview_01_main -t 30 -vcodec copy "
         ++ destPath ⟨2025, 3, 14, 9, 26, 53⟩) :=
  ⟨by decide, C2_filename_format _ (by decide)⟩

/-- C3: every invocation passes exactly one command to `os.system`, and
that command's shell words carry the duration flag `-t` with argument `30`
and, as destination, the computed timestamped path (the timestamped
filename under the fixed output directory). -/
theorem C3_single_invocation_args (t : DateTime) (os_system : OsSem) (w : World) :
    (record_clip t os_system w).calls = [commandStr t] ∧
    splitOnSpace (commandStr t).data =
      ["ffmpeg".data, "-i".data,
        "rtsp://<camera_ip>:554/h264Preview_01_main".data,
        "-t".data, "30".data, "-vcodec".data, "copy".data,
        (destPath t).data] ∧
    destPath t = outputDir ++ "/" ++ fileName t :=
  ⟨rfl, commandWords t, destPath_eq t⟩

/-- C4: two invocations at different (second-granularity) clock values
produce distinct filenames: the timestamp-to-filename map is injective. -/
theorem C4_distinct_filenames (t1 t2 : DateTime) (h : t1 ≠ t2) :
    fileName t1 ≠ fileName t2 :=
  fun hf => h (fileName_inj hf)

/-- C4 (witness): two concrete clocks one second apart give distinct
filenames. -/
theorem C4_distinct_filenames_witness :
    (⟨2025, 3, 14, 9, 26, 53⟩ : DateTime) ≠ ⟨2025, 3, 14, 9, 26, 54⟩ ∧
    fileName ⟨2025, 3, 14, 9, 26, 53⟩ ≠ fileName ⟨2025, 3, 14, 9, 26, 54⟩ :=
  ⟨by decide, C4_distinct_filenames _ _ (by decide)⟩

/-- C5: with a stub `os.system` that fails to launch the tool (returns an
exit status without touching the filesystem), `record_clip` leaves the
filesystem exactly as it was — and in general the wrapper's only
filesystem effect is whatever the single subprocess call does. -/
theorem C5_no_file_created_by_wrapper
    (t : DateTime) (w : World) (ec : Int) (os_system : OsSem) :
    (record_clip t (fun _ w' => (w', ec)) w).world = w ∧
    (record_clip t os_system w).world = (os_system (commandStr t) w).1 :=
  ⟨rfl, rfl⟩

/-- C6: the constructed command instructs the capture tool to use
codec-copy mode: its shell words contain the adjacent pair
`-vcodec copy`. -/
theorem C6_codec_copy (t : DateTime) :
    ∃ pre post, splitOnSpace (commandStr t).data =
      pre ++ "-vcodec".data :: "copy".data :: post :=
  ⟨["ffmpeg".data, "-i".data, "rtsp://<camera_ip>:554/h264Preview_01_main".data,
      "-t".data, "30".data], [(destPath t).data],
    by rw [commandWords]; rfl⟩

/-- C7: an invocation's only side effect is the single `os.system` call on
the constructed command; if the subprocess invoked by that call creates at
most the destination `.mp4` file, the whole invocation creates at most that
one file, and the model has no other process-wide state to mutate. -/
theorem C7_frame_effect (t : DateTime) (os_system : OsSem) (w : World)
    (h : ((os_system (commandStr t) w).1).files ⊆ destPath t :: w.files) :
    (record_clip t os_system w).calls = [commandStr t] ∧
    (record_clip t os_system w).world.files ⊆ destPath t :: w.files :=
  ⟨rfl, h⟩

/-- C7 (witness): a concrete capture-tool semantics that creates exactly
the destination file satisfies the hypothesis, and the conclusion holds for
it on the empty filesystem. -/
theorem C7_frame_effect_witness :
    ((((fun (_ : String) (w' : World) =>
          (World.mk (destPath ⟨2025, 3, 14, 9, 26, 53⟩ :: w'.files), (0 : Int)))
        (commandStr ⟨2025, 3, 14, 9, 26, 53⟩) (World.mk [])).1).files
      ⊆ destPath ⟨2025, 3, 14, 9, 26, 53⟩ :: (World.mk [] : World).files) ∧
    ((record_clip ⟨2025, 3, 14, 9, 26, 53⟩
        (fun (_ : String) (w' : World) =>
          (World.mk (destPath ⟨2025, 3, 14, 9, 26, 53⟩ :: w'.files), (0 : Int)))
        (World.mk [])).calls = [commandStr ⟨2025, 3, 14, 9, 26, 53⟩] ∧
      (record_clip ⟨2025, 3, 14, 9, 26, 53⟩
        (fun (_ : String) (w' : World) =>
          (World.mk (destPath ⟨2025, 3, 14, 9, 26, 53⟩ :: w'.files), (0 : Int)))
        (World.mk [])).world.files
        ⊆ destPath ⟨2025, 3, 14, 9, 26, 53⟩ :: (World.mk [] : World).files) :=
  ⟨List.Subset.refl _, C7_frame_effect _ _ _ (List.Subset.refl _)⟩

/-- C8: the command is a function of the observed clock alone — any two
executions at the same clock pass the same command list to `os.system`,
whatever the filesystem or subprocess behaviour — and every part of the
command other than the interpolated timestamp is a fixed literal: the
command is the fixed literal prefix followed by the timestamp and `.mp4`,
and its first seven shell words are constants. -/
theorem C8_deterministic_command
    (t : DateTime) (os1 os2 : OsSem) (w1 w2 : World) :
    (record_clip t os1 w1).calls = (record_clip t os2 w2).calls ∧
    commandStr t =
      "ffmpeg -i rtsp://<camera_ip>:554/h264Preview_01_main -t 30 -vcodec copy /var/www/html/clips/"
        ++ timestampStr t ++ ".mp4" ∧
    (splitOnSpace (commandStr t).data).take 7 =
      ["ffmpeg".data, "-i".data,
        "rtsp://<camera_ip>:554/h264Preview_01_main".data,
        "-t".data, "30".data, "-vcodec".data, "copy".data] :=
  ⟨rfl, rfl, by rw [commandWords]; rfl⟩

/-- C9: every character of the generated timestamp is an ASCII digit, a
hyphen or an underscore; hence no character of it is a shell
metacharacter, and the command always splits into the same fixed argument
structure (seven fixed words and the destination path). -/
theorem C9_timestamp_charclass (t : DateTime) :
    (∀ c ∈ timestampChars t, c.isDigit = true ∨ c = '-' ∨ c = '_') ∧
    (∀ c ∈ timestampChars t, c ∉ shellMetaChars) ∧
    splitOnSpace (commandStr t).data =
      ["ffmpeg".data, "-i".data,
        "rtsp://<camera_ip>:554/h264Preview_01_main".data,
        "-t".data, "30".data, "-vcodec".data, "copy".data,
        (destPath t).data] := by
  refine ⟨timestampChars_classes t, ?_, commandWords t⟩
  intro c hc hmem
  have hnd : ∀ m ∈ shellMetaChars, m.isDigit = false := by decide
  rcases timestampChars_classes t c hc with h | h | h
  · rw [hnd c hmem] at h
    exact Bool.false_ne_true h
  · subst h
    exact absurd hmem (by decide)
  · subst h
    exact absurd hmem (by decide)

/-- C9 (witness): the hyphen occurs in a concrete timestamp and satisfies
the character-class disjunction given by the theorem. -/
theorem C9_timestamp_charclass_witness :
    '-' ∈ timestampChars ⟨2025, 3, 14, 9, 26, 53⟩ ∧
    ('-'.isDigit = true ∨ '-' = '-' ∨ '-' = '_') :=
  ⟨by decide, (C9_timestamp_charclass ⟨2025, 3, 14, 9, 26, 53⟩).1 '-' (by decide)⟩

/-- C10: loading the module runs `record_clip` exactly once: the import
(not-as-main) execution already issues exactly the single capture command,
it behaves identically to running the file as a script (the one top-level
call site is unguarded), and that call site is the module's only one. -/
theorem C10_load_runs_once (t : DateTime) (os_system : OsSem) (w : World) :
    (loadModule t os_system false w).2 = [commandStr t] ∧
    loadModule t os_system false w = loadModule t os_system true w ∧
    moduleCallSites = [⟨"record_clip", false⟩] :=
  ⟨rfl, rfl, rfl⟩

end ClipManager
